import Mathlib

/-!
Verification of the embedding-layer core of pymechanical: the Redirecting
Handle (generation-tagged re-resolution of native object references), the
Main-Loop Poster (mailbox queue, futures, drain loop), the cooperative idle
primitive, session disposal, the single-instance-per-process registry and the
save/open project round trip.  The implementation of these components lives in
the packaged library; the repository carries their tests and the design
document, so the definitions below are shallow embeddings modelled from the
design document, with the behavior pinned by the tests in
tests/embedding/test_app.py and tests/conftest.py.
-/

namespace Embedding

/-- Error kinds of the embedding core: a posted callable raised (the original
error is preserved as the cause), an operation was attempted after Session
disposal, or a resolver ran before the object graph was ready. -/
inductive Err where
  | TaskFailed (cause : Nat)
  | SessionClosed
  | GraphNotReady
deriving DecidableEq

/-- State of a result cell: Pending, fulfilled with a value, or fulfilled with
an error.  Values are `Option String`: `some s` for a callable returning a
string, `none` for a callable returning nothing. -/
inductive FutureState where
  | Pending
  | Value (v : Option String)
  | Failed (e : Err)
deriving DecidableEq

/-- Modelled from the spec: the mutable object graph of the host application.
Only the piece the tests exercise is modelled: the project name
(DataModel.Project.Name). -/
structure Graph where
  projectName : String
deriving DecidableEq

/-- A freshly rebuilt object graph.  The default project name is "Project",
as observed by test_app_poster. -/
def defaultGraph : Graph := { projectName := "Project" }

/-- Modelled from the spec: the effect of a zero-argument callable posted to
the main loop.  A callable may read host state, mutate it, raise an error
(carrying a numeric cause), or return a plain value. -/
inductive Action where
  | getProjectName
  | setProjectName (n : String)
  | raiseErr (cause : Nat)
  | pureVal (v : String)
deriving DecidableEq

/-- Run a callable on the current object graph: returns the updated graph and
the returned value, or the raised cause. -/
def runAction : Action → Graph → Except Nat (Graph × Option String)
  | .getProjectName, g => .ok (g, some g.projectName)
  | .setProjectName n, g => .ok ({ g with projectName := n }, none)
  | .raiseErr c, _ => .error c
  | .pureVal v, g => .ok (g, some v)

/-- A Posted Task: an immutable record of callable and submission sequence
number; the sequence number also identifies the result cell. -/
structure Task where
  seq : Nat
  action : Action
deriving DecidableEq

/-- Modelled from the spec: one live instance of the host application.  Holds
the version, the read-only flag, the generation counter incremented on every
object-graph rebuild, the current graph, the FIFO Mailbox Queue, the result
cells of all posted tasks (keyed by sequence number), the next fresh sequence
number, the disposed flag and the project file path recorded by save_as. -/
structure Session where
  version : Nat
  readonly : Bool
  generation : Nat
  graph : Graph
  queue : List Task
  futures : List (Nat × FutureState)
  nextSeq : Nat
  disposed : Bool
  savedPath : Option String
deriving DecidableEq

/-- The session as it stands right after launch. -/
def initSession : Session :=
  { version := 242, readonly := false, generation := 0, graph := defaultGraph,
    queue := [], futures := [], nextSeq := 0, disposed := false,
    savedPath := none }

/-- Fulfill the result cell with the given sequence number. -/
def fulfill (fid : Nat) (st : FutureState) (l : List (Nat × FutureState)) :
    List (Nat × FutureState) :=
  l.map (fun p => if p.1 = fid then (p.1, st) else p)

/-- Read the state of the result cell with the given sequence number. -/
def Session.futureState (s : Session) (fid : Nat) : Option FutureState :=
  s.futures.lookup fid

/-- Execute one Posted Task on the main thread: run the callable on the
current graph and fulfill its result cell with the returned value, or with a
TaskFailed error carrying the raised cause. -/
def Session.executeTask (s : Session) (t : Task) : Session :=
  match runAction t.action s.graph with
  | .ok (g, v) => { s with graph := g, futures := fulfill t.seq (.Value v) s.futures }
  | .error c => { s with futures := fulfill t.seq (.Failed (.TaskFailed c)) s.futures }

/-- Modelled from the spec: drain_and_execute_pending of the Main-Loop
Poster.  Atomically snapshots and clears the Mailbox Queue, then executes the
snapshot in FIFO submission order, fulfilling each result cell. -/
def Session.drain_and_execute_pending (s : Session) : Session :=
  s.queue.foldl Session.executeTask { s with queue := [] }

/-- Modelled from the spec: post of the Main-Loop Poster.  Rejected with
SessionClosed after disposal.  Called from the main thread itself
(fromMainThread = true) the callable executes immediately and synchronously
and the Mailbox Queue is never touched; called from a worker thread the task
is appended to the queue with a Pending result cell and post returns at once
with the future handle. -/
def Session.post (s : Session) (fromMainThread : Bool) (a : Action) :
    Except Err (Session × Nat) :=
  if s.disposed then .error .SessionClosed
  else
    let fid := s.nextSeq
    if fromMainThread then
      .ok (Session.executeTask
        { s with nextSeq := fid + 1, futures := s.futures ++ [(fid, .Pending)] }
        ⟨fid, a⟩, fid)
    else
      .ok ({ s with nextSeq := fid + 1,
                    queue := s.queue ++ [⟨fid, a⟩],
                    futures := s.futures ++ [(fid, .Pending)] }, fid)

/-- Modelled from the spec: the object-graph rebuild performed by app.new():
the generation counter strictly increases, the graph is discarded and rebuilt
fresh, and the project no longer has a save path. -/
def Session.new (s : Session) : Session :=
  { s with generation := s.generation + 1, graph := defaultGraph,
           savedPath := none }

/-- Modelled from the spec: the cooperative idle primitive idle_wait
(utils.sleep), in discrete time with a drain interval of one tick.  Each tick
of the requested duration invokes drain_and_execute_pending; the call returns
only once the whole duration has elapsed, and reports the elapsed ticks. -/
def idle_wait : Nat → Session → Session × Nat
  | 0, s => (s, 0)
  | d + 1, s =>
    let p := idle_wait d (s.drain_and_execute_pending)
    (p.1, p.2 + 1)

/-- A native reference into the object graph, tagged with the generation of
the graph it points into.  A reference whose tag differs from the current
generation is stale: the object it denotes was destroyed by a rebuild. -/
structure NativeRef where
  gen : Nat
  root : String
deriving DecidableEq

/-- Dereference a native reference: yields the project name held by the
current graph when the reference is current, nothing when it is stale. -/
def Session.deref (s : Session) (r : NativeRef) : Option String :=
  if r.gen = s.generation then some s.graph.projectName else none

/-- Modelled from the spec: a Redirecting Handle wraps a stable resolver
target (the root name), a cached native reference and the generation at which
it was cached. -/
structure Handle where
  root : String
  cachedRef : Option NativeRef
  cachedGen : Nat
deriving DecidableEq

/-- Modelled from the spec: Handle.resolve.  Rejected with SessionClosed
after disposal.  Returns the cached reference only when the cached generation
equals the current generation of the Session; otherwise re-invokes the
resolver and updates both the cache and the recorded generation. -/
def Handle.resolve (h : Handle) (s : Session) : Except Err (Handle × NativeRef) :=
  if s.disposed then .error .SessionClosed
  else
    match h.cachedRef with
    | some r =>
      if h.cachedGen = s.generation then .ok (h, r)
      else
        .ok ({ h with cachedRef := some ⟨s.generation, h.root⟩,
                      cachedGen := s.generation },
             ⟨s.generation, h.root⟩)
    | none =>
        .ok ({ h with cachedRef := some ⟨s.generation, h.root⟩,
                      cachedGen := s.generation },
             ⟨s.generation, h.root⟩)

/-- Forwarding semantics of the Redirecting Handle: an access first resolves
the current native reference, then delegates the property read to it. -/
def Handle.readProjectName (h : Handle) (s : Session) :
    Except Err (Handle × NativeRef × String) :=
  match h.resolve s with
  | .error e => .error e
  | .ok (h2, r) =>
    match s.deref r with
    | some v => .ok (h2, r, v)
    | none => .error .GraphNotReady

/-- A Pending result cell transitions to a SessionClosed failure at disposal;
fulfilled cells are left as they are. -/
def closePending : FutureState → FutureState
  | .Pending => .Failed .SessionClosed
  | st => st

/-- Modelled from the spec: Session disposal.  Every still-Pending Future is
fulfilled with a SessionClosed error, the queue is emptied and the session is
marked disposed so that further operations are rejected. -/
def Session.dispose (s : Session) : Session :=
  { s with disposed := true, queue := [],
           futures := s.futures.map (fun p => (p.1, closePending p.2)) }

/-- Direct property write through the application object, used by the save
and open tests to tag the project state. -/
def Session.setProjectName (s : Session) (n : String) : Session :=
  { s with graph := { s.graph with projectName := n } }

/-- Modelled from the spec: save_as(path) stores the project state under the
path and records the path on the session. -/
def Session.save_as (s : Session) (p : String) (fs : List (String × Graph)) :
    Session × List (String × Graph) :=
  ({ s with savedPath := some p }, (p, s.graph) :: fs)

/-- Modelled from the spec: save() stores the project state under the path
recorded by an earlier save_as or open; with no recorded path it raises. -/
def Session.save (s : Session) (fs : List (String × Graph)) :
    Except String (Session × List (String × Graph)) :=
  match s.savedPath with
  | none => .error "the project has never been saved to a file"
  | some p => .ok (s, (p, s.graph) :: fs)

/-- Modelled from the spec: open(path) discards the current graph, loads the
project state stored under the path, records the path for later saves, and
counts as a rebuild of the object graph. -/
def Session.openFile (s : Session) (p : String) (fs : List (String × Graph)) :
    Except String Session :=
  match fs.lookup p with
  | none => .error "file not found"
  | some g =>
    .ok { s with generation := s.generation + 1, graph := g,
                 savedPath := some p }

/-- The error message raised when a second embedded instance is constructed,
as asserted by test_building_gallery. -/
def galleryErrMsg : String := "Cannot have more than one embedded mechanical instance"

/-- Modelled from the spec: the process-wide registry holding the single
active embedded instance, identified by a numeric id, plus the next fresh
id. -/
structure ProcState where
  activeInstance : Option Nat
  nextId : Nat
deriving DecidableEq

/-- Modelled from the spec: constructing an embedded App instance.  With no
active instance one is created and registered.  With an instance already
active, construction raises unless the building-gallery flag is on, in which
case the single kept instance is reused. -/
def launchApp (buildingGallery : Bool) (p : ProcState) :
    Except String (ProcState × Nat) :=
  match p.activeInstance with
  | none =>
    .ok ({ activeInstance := some p.nextId, nextId := p.nextId + 1 }, p.nextId)
  | some i =>
    if buildingGallery then .ok (p, i)
    else .error galleryErrMsg


/-- The state a result cell is fulfilled with when a callable runs against a
given graph: the returned value on success, a TaskFailed error carrying the
original cause on a raise.  Mirrors the two branches of
Session.executeTask. -/
def taskResult (a : Action) (g : Graph) : FutureState :=
  match runAction a g with
  | .ok (_, v) => .Value v
  | .error c => .Failed (.TaskFailed c)

/-- The object graph obtained by running a batch of callables in submission
order: each callable transforms the graph on success and leaves it unchanged
on a raise.  Mirrors the graph component of draining a batch. -/
def runBatchGraph (batch : List Task) (g : Graph) : Graph :=
  batch.foldl
    (fun g2 t =>
      match runAction t.action g2 with
      | .ok (g3, _) => g3
      | .error _ => g2) g

/-- A sample session with one rename task already queued, used by concrete
witness runs. -/
def queuedSession : Session :=
  { initSession with
    queue := [⟨0, .setProjectName "x"⟩],
    futures := [(0, .Pending)],
    nextSeq := 1 }

/-- A sample session holding a queued read followed by a queued rename, the
batch of test_app_poster. -/
def twoTaskSession : Session :=
  { initSession with
    queue := [⟨0, .getProjectName⟩, ⟨1, .setProjectName "foo"⟩],
    futures := [(0, .Pending), (1, .Pending)],
    nextSeq := 2 }

/-- A sample session holding a queued raising callable followed by a queued
rename. -/
def raisingSession : Session :=
  { initSession with
    queue := [⟨0, .raiseErr 7⟩, ⟨1, .setProjectName "foo"⟩],
    futures := [(0, .Pending), (1, .Pending)],
    nextSeq := 2 }


/-- Helper: lookup on a cons cell. -/
theorem lookup_cons (k k0 : Nat) (v0 : FutureState)
    (tl : List (Nat × FutureState)) :
    (((k0, v0) :: tl).lookup k) = if k = k0 then some v0 else tl.lookup k := by
  by_cases hk : k = k0
  · simp [List.lookup, hk]
  · have hb : (k == k0) = false := by simp [hk]
    simp [List.lookup, hb, hk]

/-- Helper: fulfilling a cell that exists makes its lookup read the new
state (every entry under that key is rewritten, so the first one found is
the new state). -/
theorem lookup_fulfill_self (fid : Nat) (st : FutureState)
    (l : List (Nat × FutureState)) (h : (l.lookup fid).isSome) :
    (fulfill fid st l).lookup fid = some st := by
  induction l with
  | nil => simp [List.lookup] at h
  | cons p tl ih =>
    obtain ⟨k0, v0⟩ := p
    rw [lookup_cons] at h
    by_cases hk : fid = k0
    · subst hk
      simp [fulfill, lookup_cons]
    · rw [if_neg hk] at h
      have hk0 : ¬k0 = fid := fun hh => hk hh.symm
      have : fulfill fid st ((k0, v0) :: tl) = (k0, v0) :: fulfill fid st tl := by
        simp [fulfill, hk0]
      rw [this, lookup_cons, if_neg hk]
      exact ih h

/-- Helper: fulfilling one cell leaves every other cell unchanged. -/
theorem lookup_fulfill_ne (fid k : Nat) (st : FutureState)
    (l : List (Nat × FutureState)) (h : k ≠ fid) :
    (fulfill fid st l).lookup k = l.lookup k := by
  induction l with
  | nil => rfl
  | cons p tl ih =>
    obtain ⟨k0, v0⟩ := p
    by_cases hk : k0 = fid
    · subst hk
      have : fulfill k0 st ((k0, v0) :: tl) = (k0, st) :: fulfill k0 st tl := by
        simp [fulfill]
      rw [this, lookup_cons, lookup_cons, if_neg h, if_neg h]
      exact ih
    · have : fulfill fid st ((k0, v0) :: tl) = (k0, v0) :: fulfill fid st tl := by
        simp [fulfill, hk]
      rw [this, lookup_cons, lookup_cons]
      by_cases hkk : k = k0
      · simp [hkk]
      · rw [if_neg hkk, if_neg hkk]
        exact ih

/-- Helper: a lookup that misses the first list continues in the second. -/
theorem lookup_append_left_none (l1 l2 : List (Nat × FutureState)) (k : Nat)
    (h : l1.lookup k = none) : (l1 ++ l2).lookup k = l2.lookup k := by
  induction l1 with
  | nil => rfl
  | cons p tl ih =>
    obtain ⟨k0, v0⟩ := p
    rw [lookup_cons] at h
    rw [List.cons_append, lookup_cons]
    by_cases hk : k = k0
    · simp [hk] at h
    · rw [if_neg hk] at h ⊢
      exact ih h

/-- Helper: a cell present in the second list is present in the append. -/
theorem lookup_append_isSome (l1 l2 : List (Nat × FutureState)) (k : Nat)
    (h : (l2.lookup k).isSome) : ((l1 ++ l2).lookup k).isSome := by
  induction l1 with
  | nil => exact h
  | cons p tl ih =>
    obtain ⟨k0, v0⟩ := p
    rw [List.cons_append, lookup_cons]
    by_cases hk : k = k0
    · simp [hk]
    · rw [if_neg hk]
      exact ih

/-- Helper: executing a task never deletes a result cell. -/
theorem executeTask_lookup_isSome (s : Session) (t : Task) (k : Nat)
    (h : (s.futures.lookup k).isSome) :
    (((s.executeTask t).futures).lookup k).isSome := by
  unfold Session.executeTask
  cases hr : runAction t.action s.graph with
  | ok p =>
    obtain ⟨g, v⟩ := p
    by_cases hk : k = t.seq
    · subst hk
      simp [lookup_fulfill_self _ _ _ h]
    · simp [lookup_fulfill_ne _ _ _ _ hk, h]
  | error c =>
    by_cases hk : k = t.seq
    · subst hk
      simp [lookup_fulfill_self _ _ _ h]
    · simp [lookup_fulfill_ne _ _ _ _ hk, h]

/-- Helper: a whole batch of task executions never deletes a result cell. -/
theorem foldl_executeTask_lookup_isSome (batch : List Task) (s : Session)
    (k : Nat) (h : (s.futures.lookup k).isSome) :
    (((batch.foldl Session.executeTask s).futures).lookup k).isSome := by
  induction batch generalizing s with
  | nil => exact h
  | cons t tl ih =>
    rw [List.foldl_cons]
    exact ih (s.executeTask t) (executeTask_lookup_isSome s t k h)

/-- Helper: executing tasks whose sequence numbers all differ from k leaves
the cell k unchanged. -/
theorem foldl_executeTask_lookup_ne (batch : List Task) (s : Session)
    (k : Nat) (h : ∀ t ∈ batch, t.seq ≠ k) :
    ((batch.foldl Session.executeTask s).futures).lookup k =
      s.futures.lookup k := by
  induction batch generalizing s with
  | nil => rfl
  | cons t tl ih =>
    have ht : t.seq ≠ k := h t (List.mem_cons_self t tl)
    have htl : ∀ t2 ∈ tl, t2.seq ≠ k := fun t2 h2 => h t2 (List.mem_cons_of_mem t h2)
    rw [List.foldl_cons, ih (s.executeTask t) htl]
    unfold Session.executeTask
    cases hr : runAction t.action s.graph with
    | ok p =>
      obtain ⟨g, v⟩ := p
      exact lookup_fulfill_ne _ _ _ _ (fun hh => ht hh.symm)
    | error c =>
      exact lookup_fulfill_ne _ _ _ _ (fun hh => ht hh.symm)

/-- Helper: executing tasks does not touch the queue. -/
theorem foldl_executeTask_queue (batch : List Task) (s : Session) :
    (batch.foldl Session.executeTask s).queue = s.queue := by
  induction batch generalizing s with
  | nil => rfl
  | cons t tl ih =>
    rw [List.foldl_cons, ih (s.executeTask t)]
    unfold Session.executeTask
    cases runAction t.action s.graph with
    | ok p => obtain ⟨g, v⟩ := p; rfl
    | error c => rfl

/-- Helper: disposal rewrites cells pointwise through closePending. -/
theorem lookup_map_closePending (l : List (Nat × FutureState)) (k : Nat) :
    ((l.map (fun p => (p.1, closePending p.2))).lookup k) =
      (l.lookup k).map closePending := by
  induction l with
  | nil => rfl
  | cons p tl ih =>
    obtain ⟨k0, v0⟩ := p
    rw [List.map_cons, lookup_cons, lookup_cons]
    by_cases hk : k = k0
    · simp [hk]
    · rw [if_neg hk, if_neg hk]
      exact ih


/-- Helper: a successful resolve implies the session is live, and the handle
comes back with its cache and recorded generation set to the returned
reference and the current generation. -/
theorem resolve_ok (h : Handle) (s : Session) (h2 : Handle) (r : NativeRef)
    (hres : h.resolve s = .ok (h2, r)) :
    s.disposed = false ∧ h2.cachedRef = some r ∧
      h2.cachedGen = s.generation ∧ h2.root = h.root := by
  unfold Handle.resolve at hres
  split at hres
  · cases hres
  · rename_i hd
    have hd2 : s.disposed = false := by
      simpa using hd
    split at hres
    · rename_i r0 hcr
      split at hres
      · rename_i hg
        injection hres with hres1
        injection hres1 with hh hr
        subst hh
        subst hr
        exact ⟨hd2, hcr, hg, rfl⟩
      · injection hres with hres1
        injection hres1 with hh hr
        subst hh
        subst hr
        exact ⟨hd2, rfl, rfl, rfl⟩
    · injection hres with hres1
      injection hres1 with hh hr
      subst hh
      subst hr
      exact ⟨hd2, rfl, rfl, rfl⟩

/-- Helper: a successful forwarded read implies the session is live, the
reference used is tagged with the current generation, the handle cache is in
sync with the current generation, and the value read is the one held by the
current graph. -/
theorem readProjectName_ok (h h1 : Handle) (s : Session) (r1 : NativeRef)
    (v1 : String) (hacc : h.readProjectName s = .ok (h1, r1, v1)) :
    s.disposed = false ∧ r1.gen = s.generation ∧
      h1.cachedGen = s.generation ∧ h1.cachedRef = some r1 ∧
      v1 = s.graph.projectName := by
  unfold Handle.readProjectName at hacc
  split at hacc
  · cases hacc
  · rename_i h2 r hres
    split at hacc
    · rename_i v hdr
      injection hacc with e1
      injection e1 with hh e2
      injection e2 with hr hv
      obtain ⟨hd, hcr, hcg, _⟩ := resolve_ok h s h2 r hres
      unfold Session.deref at hdr
      by_cases hg : r.gen = s.generation
      · rw [if_pos hg] at hdr
        injection hdr with hdr
        refine ⟨hd, ?_, ?_, ?_, ?_⟩
        · rw [← hr]; exact hg
        · rw [← hh]; exact hcg
        · rw [← hh, ← hr]; exact hcr
        · rw [← hv]; exact hdr.symm
      · rw [if_neg hg] at hdr
        cases hdr
    · cases hacc

/-- C1: staleness invariant.  A successful read through a Redirecting Handle
followed by a rebuild (app.new()) and a second read through the same handle:
the second read never uses the native reference observed before the rebuild
(the reference it uses differs and carries the new generation), and the value
it returns is the one held by the rebuilt object graph. -/
theorem staleness_invariant (s : Session) (h h1 : Handle) (r1 : NativeRef)
    (v1 : String) (hacc : h.readProjectName s = .ok (h1, r1, v1)) :
    ∃ h2 r2, h1.readProjectName s.new = .ok (h2, r2, (s.new).graph.projectName) ∧
      r2 ≠ r1 ∧ r2.gen = (s.new).generation := by
  obtain ⟨hd, hr1g, hcg, hcr, _⟩ := readProjectName_ok h h1 s r1 v1 hacc
  have hne : ¬h1.cachedGen = (Session.new s).generation := by
    rw [hcg]
    unfold Session.new
    simp
  have hdisp : (Session.new s).disposed = false := hd
  refine ⟨{ h1 with cachedRef := some ⟨(Session.new s).generation, h1.root⟩,
                    cachedGen := (Session.new s).generation },
          ⟨(Session.new s).generation, h1.root⟩, ?_, ?_, rfl⟩
  · unfold Handle.readProjectName Handle.resolve Session.deref
    rw [hdisp]
    simp [hcr, hne]
  · intro hcontra
    have hgens : (Session.new s).generation = r1.gen :=
      congrArg NativeRef.gen hcontra
    rw [hr1g] at hgens
    unfold Session.new at hgens
    simp at hgens

/-- C1 witness: a concrete run of the staleness invariant on a freshly
launched session whose project was renamed to "a", as in
test_app_getters_notstale. -/
theorem staleness_invariant_witness :
    ((⟨"DataModel", none, 0⟩ : Handle).readProjectName
        (initSession.setProjectName "a") =
      .ok (⟨"DataModel", some ⟨0, "DataModel"⟩, 0⟩, ⟨0, "DataModel"⟩, "a")) ∧
    ∃ h2 r2,
      (⟨"DataModel", some ⟨0, "DataModel"⟩, 0⟩ : Handle).readProjectName
          (initSession.setProjectName "a").new =
        .ok (h2, r2, ((initSession.setProjectName "a").new).graph.projectName) ∧
      r2 ≠ (⟨0, "DataModel"⟩ : NativeRef) ∧
      r2.gen = ((initSession.setProjectName "a").new).generation :=
  ⟨rfl, staleness_invariant (initSession.setProjectName "a")
    ⟨"DataModel", none, 0⟩ ⟨"DataModel", some ⟨0, "DataModel"⟩, 0⟩
    ⟨0, "DataModel"⟩ "a" rfl⟩

/-- C4: generation monotonicity.  The generation counter strictly increases
on each rebuild, and a resolve on a well-formed handle (one whose cached
reference is tagged with its recorded generation) never serves a reference
tagged with anything but the current generation of the Session: a cache
recorded at a stale generation is re-resolved, never served. -/
theorem generation_monotonic (s : Session) (h h2 : Handle) (r : NativeRef)
    (hwf : ∀ r0, h.cachedRef = some r0 → r0.gen = h.cachedGen)
    (hres : h.resolve s = .ok (h2, r)) :
    s.generation < (s.new).generation ∧ r.gen = s.generation ∧
      h2.cachedGen = s.generation := by
  obtain ⟨hd, _, hcg, _⟩ := resolve_ok h s h2 r hres
  refine ⟨by unfold Session.new; simp, ?_, hcg⟩
  unfold Handle.resolve at hres
  split at hres
  · cases hres
  · split at hres
    · rename_i r0 hcr
      split at hres
      · rename_i hg
        injection hres with hres1
        injection hres1 with hh hr
        subst hr
        rw [hwf r0 hcr, hg]
      · injection hres with hres1
        injection hres1 with hh hr
        subst hr
        rfl
    · injection hres with hres1
      injection hres1 with hh hr
      subst hr
      rfl

/-- C4 witness: a concrete resolve of a fresh handle on the launch session,
then the generation strictly increasing across a rebuild. -/
theorem generation_monotonic_witness :
    (∀ r0, (⟨"Model", none, 0⟩ : Handle).cachedRef = some r0 →
      r0.gen = (⟨"Model", none, 0⟩ : Handle).cachedGen) ∧
    ((⟨"Model", none, 0⟩ : Handle).resolve initSession =
      .ok (⟨"Model", some ⟨0, "Model"⟩, 0⟩, ⟨0, "Model"⟩)) ∧
    (initSession.generation < (initSession.new).generation ∧
      (⟨0, "Model"⟩ : NativeRef).gen = initSession.generation ∧
      (⟨"Model", some ⟨0, "Model"⟩, 0⟩ : Handle).cachedGen =
        initSession.generation) :=
  ⟨(fun _ hr => nomatch hr), rfl,
    generation_monotonic initSession ⟨"Model", none, 0⟩
      ⟨"Model", some ⟨0, "Model"⟩, 0⟩ ⟨0, "Model"⟩
      (fun _ hr => nomatch hr) rfl⟩


/-- C5: self-post non-deadlock.  Posting from the main thread itself returns
successfully with the callable already executed synchronously: the Mailbox
Queue is untouched, the returned Future is already fulfilled (not Pending)
when post returns, and the graph reflects the immediate execution of the
callable. -/
theorem self_post_non_deadlock (s : Session) (a : Action)
    (hd : s.disposed = false) :
    ∃ s1 fid st, s.post true a = .ok (s1, fid) ∧ s1.queue = s.queue ∧
      s1.futureState fid = some st ∧ st ≠ .Pending ∧
      s1.graph = (match runAction a s.graph with
        | .ok (g, _) => g
        | .error _ => s.graph) := by
  have hsome :
      ((s.futures ++ [(s.nextSeq, FutureState.Pending)]).lookup s.nextSeq).isSome := by
    apply lookup_append_isSome
    simp [List.lookup]
  cases hr : runAction a s.graph with
  | ok pr =>
    obtain ⟨g, v⟩ := pr
    refine ⟨{ s with
              nextSeq := s.nextSeq + 1,
              graph := g,
              futures := fulfill s.nextSeq (.Value v)
                (s.futures ++ [(s.nextSeq, .Pending)]) },
            s.nextSeq, .Value v, ?_, rfl, ?_, by simp, rfl⟩
    · simp [Session.post, Session.executeTask, hd, hr]
    · show (fulfill s.nextSeq (FutureState.Value v)
          (s.futures ++ [(s.nextSeq, FutureState.Pending)])).lookup s.nextSeq =
        some (FutureState.Value v)
      exact lookup_fulfill_self _ _ _ hsome
  | error c =>
    refine ⟨{ s with
              nextSeq := s.nextSeq + 1,
              futures := fulfill s.nextSeq (.Failed (.TaskFailed c))
                (s.futures ++ [(s.nextSeq, .Pending)]) },
            s.nextSeq, .Failed (.TaskFailed c), ?_, rfl, ?_, by simp, rfl⟩
    · simp [Session.post, Session.executeTask, hd, hr]
    · show (fulfill s.nextSeq (FutureState.Failed (Err.TaskFailed c))
          (s.futures ++ [(s.nextSeq, FutureState.Pending)])).lookup s.nextSeq =
        some (FutureState.Failed (Err.TaskFailed c))
      exact lookup_fulfill_self _ _ _ hsome

/-- C5 witness: self-posting a rename callable on the launch session. -/
theorem self_post_non_deadlock_witness :
    initSession.disposed = false ∧
    ∃ s1 fid st,
      initSession.post true (.setProjectName "foo") = .ok (s1, fid) ∧
      s1.queue = initSession.queue ∧
      s1.futureState fid = some st ∧ st ≠ .Pending ∧
      s1.graph = (match runAction (.setProjectName "foo") initSession.graph with
        | .ok (g, _) => g
        | .error _ => initSession.graph) :=
  ⟨rfl, self_post_non_deadlock initSession (.setProjectName "foo") rfl⟩

/-- Helper: draining always leaves the Mailbox Queue empty. -/
theorem drain_queue_empty (s : Session) :
    (s.drain_and_execute_pending).queue = [] := by
  unfold Session.drain_and_execute_pending
  rw [foldl_executeTask_queue]

/-- Helper: the elapsed ticks reported by idle_wait equal the requested
duration. -/
theorem idle_wait_elapsed (d : Nat) (s : Session) : (idle_wait d s).2 = d := by
  induction d generalizing s with
  | zero => rfl
  | succ k ih => simp [idle_wait, ih]

/-- Helper: any positive idle wait has drained the queue by the time it
returns. -/
theorem idle_wait_queue (d : Nat) (s : Session) :
    (idle_wait (d + 1) s).1.queue = [] := by
  induction d generalizing s with
  | zero => simp [idle_wait, drain_queue_empty]
  | succ k ih =>
    show (idle_wait (k + 1) s.drain_and_execute_pending).1.queue = []
    exact ih _

/-- C7: idle_wait duration floor.  The elapsed time reported at return is at
least the requested duration (never cut short because work was available),
each tick of the wait invokes drain_and_execute_pending, and any positive
wait has drained the pending work by the time it returns. -/
theorem idle_wait_duration_floor (d : Nat) (s : Session) :
    d ≤ (idle_wait d s).2 ∧
      (idle_wait (d + 1) s).1 = (idle_wait d s.drain_and_execute_pending).1 ∧
      (idle_wait (d + 1) s).1.queue = [] :=
  ⟨le_of_eq (idle_wait_elapsed d s).symm, rfl, idle_wait_queue d s⟩

/-- C8: disposal drains outstanding work.  After disposal a Pending Future
has transitioned to a SessionClosed failure, no Future at all is left
Pending, and both posting new work and resolving a handle are rejected with
SessionClosed. -/
theorem disposal_closes_pending (s : Session) (fid : Nat) (b : Bool)
    (a : Action) (h : Handle) (hp : s.futureState fid = some .Pending) :
    (s.dispose).futureState fid = some (.Failed .SessionClosed) ∧
    (∀ k st, (s.dispose).futureState k = some st → st ≠ .Pending) ∧
    (s.dispose).post b a = .error .SessionClosed ∧
    h.resolve (s.dispose) = .error .SessionClosed := by
  refine ⟨?_, ?_, ?_, ?_⟩
  · show ((s.futures.map (fun p => (p.1, closePending p.2))).lookup fid) = _
    rw [lookup_map_closePending]
    unfold Session.futureState at hp
    rw [hp]
    rfl
  · intro k st hst
    have hmap : ((s.futures.lookup k).map closePending) = some st := by
      rw [← lookup_map_closePending]
      exact hst
    cases hlk : s.futures.lookup k with
    | none => rw [hlk] at hmap; cases hmap
    | some st0 =>
      rw [hlk] at hmap
      injection hmap with hst0
      rw [← hst0]
      cases st0 <;> simp [closePending]
  · simp [Session.post, Session.dispose]
  · simp [Handle.resolve, Session.dispose]

/-- C8 witness: disposing a session holding one Pending Future. -/
theorem disposal_closes_pending_witness :
    ({ initSession with futures := [(0, FutureState.Pending)] } : Session).futureState 0 =
      some .Pending ∧
    (({ initSession with futures := [(0, FutureState.Pending)] } : Session).dispose).futureState 0 =
      some (.Failed .SessionClosed) ∧
    (∀ k st,
      (({ initSession with futures := [(0, FutureState.Pending)] } : Session).dispose).futureState k =
        some st → st ≠ .Pending) ∧
    (({ initSession with futures := [(0, FutureState.Pending)] } : Session).dispose).post false
      (.pureVal "x") = .error .SessionClosed ∧
    (⟨"Model", none, 0⟩ : Handle).resolve
      ({ initSession with futures := [(0, FutureState.Pending)] } : Session).dispose =
      .error .SessionClosed :=
  ⟨rfl, disposal_closes_pending
    { initSession with futures := [(0, FutureState.Pending)] } 0 false
    (.pureVal "x") ⟨"Model", none, 0⟩ rfl⟩

/-- C9: at most one embedded session per process.  With an instance already
active, constructing another App raises the more-than-one-instance error,
unless the building-gallery flag is on, in which case the single kept
instance is returned unchanged. -/
theorem single_instance_per_process (p : ProcState) (i : Nat)
    (hactive : p.activeInstance = some i) :
    launchApp false p = .error galleryErrMsg ∧ launchApp true p = .ok (p, i) := by
  unfold launchApp
  rw [hactive]
  exact ⟨rfl, rfl⟩

/-- C9 witness: a registry already holding instance 0. -/
theorem single_instance_per_process_witness :
    (⟨some 0, 1⟩ : ProcState).activeInstance = some 0 ∧
    launchApp false ⟨some 0, 1⟩ = .error galleryErrMsg ∧
    launchApp true ⟨some 0, 1⟩ = .ok (⟨some 0, 1⟩, 0) :=
  ⟨rfl, single_instance_per_process ⟨some 0, 1⟩ 0 rfl⟩

/-- C10: save and open round trip.  save() on a project never given a file
path raises; after save_as(path), discarding the state with new() and then
opening the path restores the saved project name; after a further rename and
a plain save() to the stored path, new() followed by open(path) restores the
renamed project. -/
theorem save_open_round_trip (s : Session) (fs : List (String × Graph))
    (p n : String) (hnopath : s.savedPath = none) :
    (∃ e, s.save fs = .error e) ∧
    ∃ s2 s4 fs4 s5,
      ((s.save_as p fs).1.new).openFile p (s.save_as p fs).2 = .ok s2 ∧
      s2.graph.projectName = s.graph.projectName ∧
      (s2.setProjectName n).save (s.save_as p fs).2 = .ok (s4, fs4) ∧
      (s4.new).openFile p fs4 = .ok s5 ∧
      s5.graph.projectName = n := by
  constructor
  · refine ⟨"the project has never been saved to a file", ?_⟩
    unfold Session.save
    rw [hnopath]
  · refine ⟨{ s with
              generation := s.generation + 1 + 1,
              graph := s.graph,
              savedPath := some p },
            { s with
              generation := s.generation + 1 + 1,
              graph := { s.graph with projectName := n },
              savedPath := some p },
            (p, { s.graph with projectName := n }) :: (p, s.graph) :: fs,
            { s with
              generation := s.generation + 1 + 1 + 1 + 1,
              graph := { s.graph with projectName := n },
              savedPath := some p },
            ?_, rfl, ?_, ?_, rfl⟩
    · simp [Session.save_as, Session.new, Session.openFile, List.lookup]
    · simp [Session.save_as, Session.setProjectName, Session.save]
    · simp [Session.new, Session.openFile, List.lookup]

/-- C10 witness: the round trip of test_app_save_open on the launch session,
with the project renamed to "PROJECT 2" before the plain save. -/
theorem save_open_round_trip_witness :
    initSession.savedPath = none ∧
    ((∃ e, initSession.save [] = .error e) ∧
    ∃ s2 s4 fs4 s5,
      ((initSession.save_as "f.mechdat" []).1.new).openFile "f.mechdat"
        (initSession.save_as "f.mechdat" []).2 = .ok s2 ∧
      s2.graph.projectName = initSession.graph.projectName ∧
      (s2.setProjectName "PROJECT 2").save
        (initSession.save_as "f.mechdat" []).2 = .ok (s4, fs4) ∧
      (s4.new).openFile "f.mechdat" fs4 = .ok s5 ∧
      s5.graph.projectName = "PROJECT 2") :=
  ⟨rfl, save_open_round_trip initSession [] "f.mechdat" "PROJECT 2" rfl⟩


/-- Helper: a cell present in the first list is present in the append. -/
theorem lookup_append_isSome_left (l1 l2 : List (Nat × FutureState)) (k : Nat)
    (h : (l1.lookup k).isSome) : ((l1 ++ l2).lookup k).isSome := by
  induction l1 with
  | nil => simp [List.lookup] at h
  | cons p tl ih =>
    obtain ⟨k0, v0⟩ := p
    rw [lookup_cons] at h
    rw [List.cons_append, lookup_cons]
    by_cases hk : k = k0
    · simp [hk]
    · rw [if_neg hk] at h ⊢
      exact ih h

/-- Helper: the graph after one task execution, as a graph-level step. -/
theorem executeTask_graph (s : Session) (t : Task) :
    (s.executeTask t).graph =
      (match runAction t.action s.graph with
        | .ok (g2, _) => g2
        | .error _ => s.graph) := by
  unfold Session.executeTask
  cases runAction t.action s.graph with
  | ok p => obtain ⟨g2, v⟩ := p; rfl
  | error c => rfl

/-- Helper: the graph after draining a batch is the graph-level fold of the
batch in submission order. -/
theorem foldl_executeTask_graph (batch : List Task) (s : Session) :
    (batch.foldl Session.executeTask s).graph = runBatchGraph batch s.graph := by
  induction batch generalizing s with
  | nil => rfl
  | cons t tl ih =>
    rw [List.foldl_cons, ih, executeTask_graph]
    rfl

/-- Helper: a result cell is never fulfilled back to Pending. -/
theorem taskResult_ne_pending (a : Action) (g : Graph) :
    taskResult a g ≠ .Pending := by
  unfold taskResult
  cases runAction a g with
  | ok p => obtain ⟨g2, v⟩ := p; simp
  | error c => simp

/-- Helper: executing a task fulfills its own cell with the result of running
its callable against the graph at execution time. -/
theorem executeTask_lookup_self (s : Session) (t : Task)
    (hcell : (s.futures.lookup t.seq).isSome) :
    ((s.executeTask t).futures).lookup t.seq =
      some (taskResult t.action s.graph) := by
  unfold Session.executeTask taskResult
  cases runAction t.action s.graph with
  | ok p =>
    obtain ⟨g2, v⟩ := p
    exact lookup_fulfill_self _ _ _ hcell
  | error c =>
    exact lookup_fulfill_self _ _ _ hcell

/-- Helper: executeTask_lookup_self with the task given by its fields. -/
theorem executeTask_lookup_self_mk (s : Session) (k : Nat) (a : Action)
    (hcell : (s.futures.lookup k).isSome) :
    ((s.executeTask ⟨k, a⟩).futures).lookup k = some (taskResult a s.graph) :=
  executeTask_lookup_self s ⟨k, a⟩ hcell

/-- Helper: if some task of the batch bears the sequence number of an
existing cell, that cell is not Pending after the batch has executed. -/
theorem foldl_executeTask_not_pending (batch : List Task) (s : Session)
    (k : Nat) (hmem : ∃ u ∈ batch, u.seq = k)
    (hcell : (s.futures.lookup k).isSome) :
    ((batch.foldl Session.executeTask s).futures).lookup k ≠
      some .Pending := by
  induction batch generalizing s with
  | nil =>
    obtain ⟨u, hu, _⟩ := hmem
    cases hu
  | cons t tl ih =>
    rw [List.foldl_cons]
    by_cases htl : ∃ u ∈ tl, u.seq = k
    · exact ih (s.executeTask t) htl (executeTask_lookup_isSome s t k hcell)
    · obtain ⟨u, hu, hseq⟩ := hmem
      have ht : t.seq = k := by
        cases hu with
        | head => exact hseq
        | tail _ hmem2 => exact absurd ⟨u, hmem2, hseq⟩ htl
      have hne : ∀ u2 ∈ tl, u2.seq ≠ k := fun u2 hu2 hc => htl ⟨u2, hu2, hc⟩
      rw [foldl_executeTask_lookup_ne tl _ k hne]
      subst ht
      rw [executeTask_lookup_self s t hcell]
      intro hcontra
      injection hcontra with hcontra
      exact taskResult_ne_pending t.action s.graph hcontra

/-- C2: FIFO draining.  For every batch of tasks already queued when the
drain begins, split arbitrarily as predecessors, a distinguished task, and
successors: the drain clears the queue, the distinguished task is fulfilled
with the result of running its callable against the graph produced by
exactly its predecessors in submission order (so a read posted before a
write observes the pre-write state), and every queued task with a result
cell is fulfilled, none left Pending. -/
theorem fifo_draining (s : Session) (pre post : List Task) (t : Task)
    (hsplit : s.queue = pre ++ t :: post)
    (hcell : (s.futures.lookup t.seq).isSome)
    (hpost : ∀ u ∈ post, u.seq ≠ t.seq) :
    (s.drain_and_execute_pending).queue = [] ∧
    (s.drain_and_execute_pending).futureState t.seq =
      some (taskResult t.action (runBatchGraph pre s.graph)) ∧
    (∀ u ∈ s.queue, (s.futures.lookup u.seq).isSome →
      (s.drain_and_execute_pending).futureState u.seq ≠ some .Pending) := by
  have hc2 : (((pre.foldl Session.executeTask
      { s with queue := [] }).futures).lookup t.seq).isSome :=
    foldl_executeTask_lookup_isSome pre { s with queue := [] } t.seq hcell
  have hgraph : (pre.foldl Session.executeTask
      { s with queue := [] }).graph = runBatchGraph pre s.graph :=
    foldl_executeTask_graph pre { s with queue := [] }
  refine ⟨drain_queue_empty s, ?_, ?_⟩
  · unfold Session.drain_and_execute_pending Session.futureState
    rw [hsplit, List.foldl_append, List.foldl_cons]
    rw [foldl_executeTask_lookup_ne post _ t.seq hpost]
    rw [executeTask_lookup_self _ t hc2, hgraph]
  · intro u hu hcellu
    unfold Session.drain_and_execute_pending Session.futureState
    exact foldl_executeTask_not_pending s.queue _ u.seq ⟨u, hu, rfl⟩ hcellu

/-- C2 witness: the batch of test_app_poster — a read queued before a rename
to "foo" — with the read as the distinguished task: it observes the pre-write
project name "Project" and both tasks are fulfilled by the drain. -/
theorem fifo_draining_witness :
    twoTaskSession.queue =
      [] ++ (⟨0, .getProjectName⟩ : Task) :: [⟨1, .setProjectName "foo"⟩] ∧
    (twoTaskSession.futures.lookup (0 : Nat)).isSome ∧
    (∀ u ∈ [(⟨1, .setProjectName "foo"⟩ : Task)], u.seq ≠ 0) ∧
    ((twoTaskSession.drain_and_execute_pending).queue = [] ∧
    (twoTaskSession.drain_and_execute_pending).futureState 0 =
      some (taskResult .getProjectName (runBatchGraph [] twoTaskSession.graph)) ∧
    (∀ u ∈ twoTaskSession.queue, (twoTaskSession.futures.lookup u.seq).isSome →
      (twoTaskSession.drain_and_execute_pending).futureState u.seq ≠
        some .Pending)) :=
  ⟨rfl, rfl, by decide,
    fifo_draining twoTaskSession [] [⟨1, .setProjectName "foo"⟩]
      ⟨0, .getProjectName⟩ rfl rfl (by decide)⟩

/-- C3: post returns an awaitable Future.  For every callable and every live
session: posted from a worker thread, post returns at once with a Future
handle still Pending (post itself neither executes nor waits), and once the
main thread drains, awaiting that Future observes exactly what the callable
returned when run against the graph as left by the already-queued tasks;
posted from the main thread, post returns a handle already fulfilled with
the result of running the callable. -/
theorem post_returns_awaitable (s : Session) (a : Action)
    (hd : s.disposed = false)
    (hfresh : s.futures.lookup s.nextSeq = none) :
    (∃ s1 fid, s.post false a = .ok (s1, fid) ∧
      s1.futureState fid = some .Pending ∧
      (s1.drain_and_execute_pending).futureState fid =
        some (taskResult a (runBatchGraph s.queue s.graph))) ∧
    (∃ s1 fid, s.post true a = .ok (s1, fid) ∧
      s1.futureState fid = some (taskResult a s.graph)) := by
  have hsomebase :
      ((s.futures ++ [(s.nextSeq, FutureState.Pending)]).lookup s.nextSeq).isSome := by
    apply lookup_append_isSome
    simp [List.lookup]
  constructor
  · refine ⟨{ s with
              nextSeq := s.nextSeq + 1,
              queue := s.queue ++ [⟨s.nextSeq, a⟩],
              futures := s.futures ++ [(s.nextSeq, .Pending)] },
            s.nextSeq, ?_, ?_, ?_⟩
    · simp [Session.post, hd]
    · show ((s.futures ++ [(s.nextSeq, FutureState.Pending)]).lookup s.nextSeq) = _
      rw [lookup_append_left_none _ _ _ hfresh]
      simp [List.lookup]
    · unfold Session.drain_and_execute_pending Session.futureState
      rw [List.foldl_append, List.foldl_cons]
      simp only [List.foldl_nil]
      rw [executeTask_lookup_self_mk _ _ _
        (foldl_executeTask_lookup_isSome s.queue _ s.nextSeq hsomebase)]
      rw [foldl_executeTask_graph]
  · refine ⟨Session.executeTask
        { s with
          nextSeq := s.nextSeq + 1,
          futures := s.futures ++ [(s.nextSeq, .Pending)] }
        ⟨s.nextSeq, a⟩,
      s.nextSeq, ?_, ?_⟩
    · simp [Session.post, hd]
    · show ((Session.executeTask _ ⟨s.nextSeq, a⟩).futures).lookup s.nextSeq = _
      rw [executeTask_lookup_self_mk _ _ _ hsomebase]

/-- C3 witness: posting a read callable onto a session that already has a
rename-to-"x" queued: the worker-posted read is Pending at return and, after
the drain, awaits "x" (the graph as left by the earlier task); the
main-thread post is fulfilled at once with the current name "Project". -/
theorem post_returns_awaitable_witness :
    queuedSession.disposed = false ∧
    queuedSession.futures.lookup queuedSession.nextSeq = none ∧
    ((∃ s1 fid, queuedSession.post false .getProjectName = .ok (s1, fid) ∧
      s1.futureState fid = some .Pending ∧
      (s1.drain_and_execute_pending).futureState fid =
        some (taskResult .getProjectName
          (runBatchGraph queuedSession.queue queuedSession.graph))) ∧
    (∃ s1 fid, queuedSession.post true .getProjectName = .ok (s1, fid) ∧
      s1.futureState fid =
        some (taskResult .getProjectName queuedSession.graph))) :=
  ⟨rfl, rfl, post_returns_awaitable queuedSession .getProjectName rfl rfl⟩

/-- C6: error surfacing.  For every batch containing a raising callable at
an arbitrary position: after the drain its Future is fulfilled with a
TaskFailed error carrying the original cause, every queued task with a
result cell is fulfilled (none left Pending), and the final graph is the
fold of the entire batch — the tasks after the raising one were executed,
the raise did not stop the drain. -/
theorem error_surfacing (s : Session) (pre post : List Task) (k c : Nat)
    (hsplit : s.queue = pre ++ ⟨k, .raiseErr c⟩ :: post)
    (hcell : (s.futures.lookup k).isSome)
    (hpost : ∀ u ∈ post, u.seq ≠ k) :
    (s.drain_and_execute_pending).futureState k =
      some (.Failed (.TaskFailed c)) ∧
    (∀ u ∈ s.queue, (s.futures.lookup u.seq).isSome →
      (s.drain_and_execute_pending).futureState u.seq ≠ some .Pending) ∧
    (s.drain_and_execute_pending).graph = runBatchGraph s.queue s.graph := by
  have hc2 : (((pre.foldl Session.executeTask
      { s with queue := [] }).futures).lookup k).isSome :=
    foldl_executeTask_lookup_isSome pre { s with queue := [] } k hcell
  refine ⟨?_, ?_, ?_⟩
  · unfold Session.drain_and_execute_pending Session.futureState
    rw [hsplit, List.foldl_append, List.foldl_cons]
    rw [foldl_executeTask_lookup_ne post _ k hpost]
    rw [executeTask_lookup_self_mk _ _ _ hc2]
    rfl
  · intro u hu hcellu
    unfold Session.drain_and_execute_pending Session.futureState
    exact foldl_executeTask_not_pending s.queue _ u.seq ⟨u, hu, rfl⟩ hcellu
  · unfold Session.drain_and_execute_pending
    rw [foldl_executeTask_graph]

/-- C6 witness: a raising callable with cause 7 queued before a rename to
"foo": the drain fulfills the first Future with TaskFailed 7, fulfills both
cells, and the final graph shows the rename after the raise was executed. -/
theorem error_surfacing_witness :
    raisingSession.queue =
      [] ++ (⟨0, .raiseErr 7⟩ : Task) :: [⟨1, .setProjectName "foo"⟩] ∧
    (raisingSession.futures.lookup (0 : Nat)).isSome ∧
    (∀ u ∈ [(⟨1, .setProjectName "foo"⟩ : Task)], u.seq ≠ 0) ∧
    ((raisingSession.drain_and_execute_pending).futureState 0 =
      some (.Failed (.TaskFailed 7)) ∧
    (∀ u ∈ raisingSession.queue, (raisingSession.futures.lookup u.seq).isSome →
      (raisingSession.drain_and_execute_pending).futureState u.seq ≠
        some .Pending) ∧
    (raisingSession.drain_and_execute_pending).graph =
      runBatchGraph raisingSession.queue raisingSession.graph) :=
  ⟨rfl, rfl, by decide,
    error_surfacing raisingSession [] [⟨1, .setProjectName "foo"⟩] 0 7
      rfl rfl (by decide)⟩

end Embedding
